import Mathlib

/-!
Verification of the object codec generator in `poem-openapi-derive/src/object.rs`.

The derive macro emits, for each annotated struct, a JSON parser
(`ParseFromJSON::parse_from_json`), a serializer (`ToJSON::to_json`) and a
schema builder.  We embed the *semantics of the generated code* as a
descriptor-driven interpreter: a `Field` record carries the per-field
attributes (`skip`, `read_only`, `write_only`, `default`, `validator`,
`flatten`) resolved by the front end, an `ObjectArgs` record carries the
type-level attributes, and the functions below replay exactly what the
generated code does with a `serde_json::Value`.
-/

set_option autoImplicit false

namespace PoemObject

/-- `serde_json::Value`. -/
inductive Json where
  | null
  | bool (b : Bool)
  | num (n : Int)
  | str (s : String)
  | arr (elems : List Json)
  | obj (entries : List (String × Json))

/-- A JSON object map (`serde_json::Map<String, Value>`), modelled as an
association list; insertion overwrites the value of an existing key. -/
abbrev JObj := List (String × Json)

/-- `Map::contains_key`. -/
def containsKey (m : JObj) (k : String) : Bool :=
  m.any (fun p => p.1 == k)

/-- Value lookup in a map (first matching entry). -/
def lookupKey : JObj → String → Option Json
  | [], _ => none
  | (k', v) :: t, k => if k' = k then some v else lookupKey t k

/-- `Map::remove`: returns the removed value (if any) together with the map
without that entry. -/
def removeKey : JObj → String → Option Json × JObj
  | [], _ => (none, [])
  | (k', v) :: t, k =>
      if k' = k then (some v, t)
      else
        let r := removeKey t k
        (r.1, (k', v) :: r.2)

/-- `Map::insert`: overwrites the value of an existing key, otherwise appends
a fresh entry. -/
def insertKey : JObj → String → Json → JObj
  | [], k, v => [(k, v)]
  | (k', v') :: t, k, v =>
      if k' = k then (k, v) :: t else (k', v') :: insertKey t k v

/-- `Map::extend`: insert every entry of the second map into the first. -/
def extendMap (m : JObj) (m' : JObj) : JObj :=
  m'.foldl (fun acc p => insertKey acc p.1 p.2) m

/-- `ParseError`: the generated code produces `ParseError::expected_type`
(carrying the offending value) and `ParseError::custom` (carrying a message);
`ParseError::propagate` only changes the error's type parameter, so it is the
identity here. -/
inductive ParseErr where
  | expectedType (v : Json)
  | custom (msg : String)

/-- A field's `default` attribute: `DefaultValue::Default` (the type's
`Default::default()`) or `DefaultValue::Function` (a named factory, modelled
by the value it returns). -/
inductive FieldDefault where
  | zero
  | factory (v : Json)

/-- The behaviour of a field's type, as the generated code consumes it through
the `ParseFromJSON`/`ToJSON`/`Type` traits: its `parse_from_json`, its
`to_json`, its `Default::default()` value, its `IS_REQUIRED` constant, and the
`required` list of its own schema (used only when the field is flattened).
Field values are represented in a universal domain, `Json` itself. -/
structure FieldCodec where
  parse : Option Json → Except ParseErr Json
  toJson : Json → Option Json
  dflt : Json
  isRequired : Bool
  subRequired : List String

/-- One `ObjectField` of the derive input, with the attributes resolved by the
front end; `name` is the resolved serialized name (after `rename`/
`rename_all`). -/
structure Field where
  name : String
  codec : FieldCodec
  skip : Bool := false
  read_only : Bool := false
  write_only : Bool := false
  fdefault : Option FieldDefault := none
  validator : List (Json → Bool) := []
  flatten : Bool := false

/-- The type-level `ObjectArgs` attributes that influence the generated
codec and the generation-time checks.  `concretes` keeps only the
instantiation names, `hasExample` whether `example` is set. -/
structure ObjectArgs where
  fields : List Field
  inline : Bool := false
  concretes : List String := []
  hasExample : Bool := false
  read_only_all : Bool := false
  write_only_all : Bool := false
  deny_unknown_fields : Bool := false

/-- The read-only violation message,
`format!("properties `{}` is read only.", name)`. -/
def readOnlyMsg (name : String) : String :=
  "properties `" ++ name ++ "` is read only."

/-- The unknown-field message, `format!("unknown field `{}`.", name)`. -/
def unknownFieldMsg (name : String) : String :=
  "unknown field `" ++ name ++ "`."

/-- Modelled from the spec: `Validators::create_obj_field_checker` lives in
`validators.rs`, which is not part of the sources; the spec says the checks
run in declaration order and the first failing check aborts parsing for that
field with an error naming the field.  Each check is modelled as a predicate
on the parsed value. -/
def checkValidators (name : String) (checks : List (Json → Bool)) (v : Json) :
    Except ParseErr Unit :=
  match checks with
  | [] => .ok ()
  | c :: cs =>
      if c v then checkValidators name cs v
      else .error (.custom ("field `" ++ name ++ "` verification failed"))

/-- The value produced by a field's `default` attribute. -/
def defaultValue (f : Field) : FieldDefault → Json
  | .zero => f.codec.dflt
  | .factory v => v

/-- The statement the generated `parse_from_json` executes for one field,
threading the working object `obj` (the `mut obj` of the generated code):
* `skip` fields are `Default::default()` and read nothing;
* read-only fields (field-level or via `read_only_all`) fail when their key
  is present, else take `Default::default()`;
* non-flatten fields with a `default` remove their key and substitute the
  default on `None`/`Null`, otherwise parse and run the validators;
* non-flatten fields without a `default` remove their key, parse the result
  (possibly `None`) and run the validators;
* flatten fields parse a clone of the entire remaining object and remove
  nothing. -/
def parseField (args : ObjectArgs) (f : Field) (obj : JObj) :
    Except ParseErr (Json × JObj) :=
  if f.skip then .ok (f.codec.dflt, obj)
  else if args.read_only_all || f.read_only then
    if containsKey obj f.name then .error (.custom (readOnlyMsg f.name))
    else .ok (f.codec.dflt, obj)
  else if !f.flatten then
    match f.fdefault with
    | some d =>
        let r := removeKey obj f.name
        match r.1 with
        | none => .ok (defaultValue f d, r.2)
        | some .null => .ok (defaultValue f d, r.2)
        | some v =>
            match f.codec.parse (some v) with
            | .error e => .error e
            | .ok w =>
                match checkValidators f.name f.validator w with
                | .error e => .error e
                | .ok _ => .ok (w, r.2)
    | none =>
        let r := removeKey obj f.name
        match f.codec.parse r.1 with
        | .error e => .error e
        | .ok w =>
            match checkValidators f.name f.validator w with
            | .error e => .error e
            | .ok _ => .ok (w, r.2)
  else
    match f.codec.parse (some (.obj obj)) with
    | .error e => .error e
    | .ok w => .ok (w, obj)

/-- The sequence of `deserialize_fields` statements: each field in declaration
order, threading the working object; returns the field values in declaration
order together with the remaining object. -/
def deserializeFields (args : ObjectArgs) :
    List Field → JObj → Except ParseErr (List Json × JObj)
  | [], obj => .ok ([], obj)
  | f :: fs, obj =>
      match parseField args f obj with
      | .error e => .error e
      | .ok (v, obj') =>
          match deserializeFields args fs obj' with
          | .error e => .error e
          | .ok (vs, obj'') => .ok (v :: vs, obj'')

/-- The generated `ParseFromJSON::parse_from_json`:
`value.unwrap_or_default()` (the default of `serde_json::Value` is `Null`),
then only a JSON object is accepted; after all fields, when
`deny_unknown_fields` is set, a non-empty remaining map is an error naming
its first remaining key.  An instance is the list of field values in
declaration order. -/
def parseFromJSON (args : ObjectArgs) (value : Option Json) :
    Except ParseErr (List Json) :=
  let value := value.getD .null
  match value with
  | .obj obj =>
      match deserializeFields args args.fields obj with
      | .error e => .error e
      | .ok (vs, rest) =>
          if args.deny_unknown_fields then
            match rest with
            | [] => .ok vs
            | (k, _) :: _ => .error (.custom (unknownFieldMsg k))
          else .ok vs
  | v => .error (.expectedType v)

/-- The statement the generated `to_json` executes for one field: `skip`
fields are never serialized; a non-flatten field is inserted under its
serialized name when it is not write-only (field-level or via
`write_only_all`) and its `to_json` is `Some`; a flatten field's entries are
merged into the parent object whenever its `to_json` is a JSON object —
note that the flatten branch does NOT consult the write-only flag. -/
def serializeField (args : ObjectArgs) (f : Field) (v : Json) (object : JObj) :
    JObj :=
  if f.skip then object
  else if !f.flatten then
    if args.write_only_all || f.write_only then object
    else
      match f.codec.toJson v with
      | some jv => insertKey object f.name jv
      | none => object
  else
    match f.codec.toJson v with
    | some (.obj o) => extendMap object o
    | _ => object

/-- The sequence of `serialize_fields` statements in declaration order. -/
def serializeFields (args : ObjectArgs) :
    List (Field × Json) → JObj → JObj
  | [], object => object
  | (f, v) :: ps, object => serializeFields args ps (serializeField args f v object)

/-- The generated `ToJSON::to_json`: start from an empty map, run every
field's serialize statement, and wrap the result. -/
def toJSON (args : ObjectArgs) (vs : List Json) : Option Json :=
  some (.obj (serializeFields args (args.fields.zip vs) []))

/-- The `required` list of the generated schema: for each non-skip field, a
non-flatten field contributes its serialized name iff its type's
`IS_REQUIRED` holds and it declares no default; a flatten field contributes
the `required` list of its own schema. -/
def requiredFieldsOf : List Field → List String
  | [] => []
  | f :: fs =>
      (if f.skip then []
       else if !f.flatten then
         if f.codec.isRequired && f.fdefault.isNone then [f.name] else []
       else f.codec.subRequired) ++ requiredFieldsOf fs

/-- The generation-time checks of `generate`, in source order: inline objects
cannot carry `concretes`; a type-level `example` cannot be combined with
`concretes`; and (per non-skip field, skip fields are `continue`d before the
check) the effective read-only and write-only flags cannot both be set.
`Except.ok` means generation proceeds and the codec is produced; an error
aborts the derive so no codec or schema exists. -/
def checkFieldConflicts (roAll woAll : Bool) : List Field → Except String Unit
  | [] => .ok ()
  | f :: fs =>
      if f.skip then checkFieldConflicts roAll woAll fs
      else if (roAll || f.read_only) && (woAll || f.write_only) then
        .error "The `write_only` and `read_only` attributes cannot be enabled both."
      else checkFieldConflicts roAll woAll fs

/-- The fallible prefix of `generate`, with the checks in source order. -/
def generate (args : ObjectArgs) : Except String Unit :=
  if args.inline && !args.concretes.isEmpty then
    .error "Inline objects cannot have the `concretes` attribute."
  else if args.hasExample && !args.concretes.isEmpty then
    .error "The example should be specified with the `concretes.example` attribute."
  else checkFieldConflicts args.read_only_all args.write_only_all args.fields

/-! ### Basic map lemmas -/

theorem removeKey_fst (obj : JObj) (k : String) :
    (removeKey obj k).1 = lookupKey obj k := by
  induction obj with
  | nil => rfl
  | cons p t ih =>
      obtain ⟨k', v⟩ := p
      by_cases h : k' = k <;> simp [removeKey, lookupKey, h, ih]

theorem lookupKey_eq_none_of_not_mem {obj : JObj} {k : String}
    (h : k ∉ obj.map Prod.fst) : lookupKey obj k = none := by
  induction obj with
  | nil => rfl
  | cons p t ih =>
      obtain ⟨k', v⟩ := p
      simp only [List.map_cons, List.mem_cons] at h
      push_neg at h
      have hk : k' ≠ k := fun e => h.1 e.symm
      simp [lookupKey, hk, ih h.2]

theorem removeKey_of_lookup_none {obj : JObj} {k : String}
    (h : lookupKey obj k = none) : removeKey obj k = (none, obj) := by
  induction obj with
  | nil => rfl
  | cons p t ih =>
      obtain ⟨k', v⟩ := p
      by_cases hk : k' = k
      · simp [lookupKey, hk] at h
      · simp only [lookupKey, if_neg hk] at h
        simp [removeKey, hk, ih h]

theorem containsKey_eq_true_of_lookup {obj : JObj} {k : String} {v : Json}
    (h : lookupKey obj k = some v) : containsKey obj k = true := by
  induction obj with
  | nil => simp [lookupKey] at h
  | cons p t ih =>
      obtain ⟨k', v'⟩ := p
      by_cases hk : k' = k
      · simp [containsKey, hk]
      · simp only [lookupKey, if_neg hk] at h
        simpa [containsKey] using Or.inr (by simpa [containsKey] using ih h)

theorem lookup_removeKey_ne (obj : JObj) {k k' : String} (h : k' ≠ k) :
    lookupKey (removeKey obj k').2 k = lookupKey obj k := by
  induction obj with
  | nil => rfl
  | cons p t ih =>
      obtain ⟨k'', v⟩ := p
      by_cases h1 : k'' = k'
      · subst h1
        simp [removeKey, lookupKey, h]
      · by_cases h2 : k'' = k
        · simp [removeKey, lookupKey, h1, h2, Ne.symm h]
        · simp [removeKey, lookupKey, h1, h2, ih]

theorem insertKey_fresh {obj : JObj} {k : String} (v : Json)
    (h : containsKey obj k = false) : insertKey obj k v = obj ++ [(k, v)] := by
  induction obj with
  | nil => rfl
  | cons p t ih =>
      obtain ⟨k', v'⟩ := p
      simp only [containsKey, List.any_cons, Bool.or_eq_false_iff] at h
      have hk : k' ≠ k := by simpa using h.1
      simp [insertKey, hk, ih (by simpa [containsKey] using h.2)]

theorem lookup_insertKey_self (obj : JObj) (k : String) (v : Json) :
    lookupKey (insertKey obj k v) k = some v := by
  induction obj with
  | nil => simp [insertKey, lookupKey]
  | cons p t ih =>
      obtain ⟨k', v'⟩ := p
      by_cases h : k' = k <;> simp [insertKey, lookupKey, h, ih]

theorem lookup_insertKey_ne (obj : JObj) {k k' : String} (v : Json) (h : k' ≠ k) :
    lookupKey (insertKey obj k' v) k = lookupKey obj k := by
  induction obj with
  | nil => simp [insertKey, lookupKey, h]
  | cons p t ih =>
      obtain ⟨k'', v'⟩ := p
      by_cases h1 : k'' = k'
      · subst h1; simp [insertKey, lookupKey, h]
      · by_cases h2 : k'' = k
        · simp [insertKey, lookupKey, h1, h2, Ne.symm h]
        · simp [insertKey, lookupKey, h1, h2, ih]

theorem lookup_extendMap_not_mem (m : JObj) {m' : JObj} {k : String}
    (h : k ∉ m'.map Prod.fst) :
    lookupKey (extendMap m m') k = lookupKey m k := by
  induction m' generalizing m with
  | nil => rfl
  | cons p t ih =>
      obtain ⟨k', v⟩ := p
      simp only [List.map_cons, List.mem_cons] at h
      push_neg at h
      simp only [extendMap, List.foldl_cons]
      rw [show List.foldl (fun acc p => insertKey acc p.1 p.2) (insertKey m k' v) t
            = extendMap (insertKey m k' v) t from rfl]
      rw [ih (insertKey m k' v) h.2, lookup_insertKey_ne m v fun e => h.1 e.symm]

theorem lookup_extendMap_mem (m : JObj) {m' : JObj} {k : String} {v : Json}
    (hnd : (m'.map Prod.fst).Nodup) (h : lookupKey m' k = some v) :
    lookupKey (extendMap m m') k = some v := by
  induction m' generalizing m with
  | nil => simp [lookupKey] at h
  | cons p t ih =>
      obtain ⟨k', v'⟩ := p
      simp only [List.map_cons, List.nodup_cons] at hnd
      simp only [extendMap, List.foldl_cons]
      rw [show List.foldl (fun acc p => insertKey acc p.1 p.2) (insertKey m k' v') t
            = extendMap (insertKey m k' v') t from rfl]
      by_cases hk : k' = k
      · subst hk
        simp [lookupKey] at h
        subst h
        rw [lookup_extendMap_not_mem _ hnd.1, lookup_insertKey_self]
      · simp only [lookupKey, if_neg hk] at h
        exact ih (insertKey m k' v') hnd.2 h

theorem serializeFields_append (args : ObjectArgs) (ps qs : List (Field × Json))
    (o : JObj) :
    serializeFields args (ps ++ qs) o = serializeFields args qs (serializeFields args ps o) := by
  induction ps generalizing o with
  | nil => rfl
  | cons p t ih => obtain ⟨f, v⟩ := p; simp [serializeFields, ih]

theorem checkValidators_ok {name : String} {checks : List (Json → Bool)} {v : Json}
    (h : ∀ c ∈ checks, c v = true) : checkValidators name checks v = .ok () := by
  induction checks with
  | nil => rfl
  | cons c cs ih =>
      simp [checkValidators, h c (List.mem_cons_self c cs), ih fun c' hc' => h c' (List.mem_cons_of_mem c hc')]

/-! ### Concrete codecs and descriptors used in witnesses and counterexamples -/

/-- A well-behaved field type over the universal value domain: parsing
returns the present value unchanged, serialization emits the value itself,
absence is an error, the zero value is `null`. -/
def idCodec : FieldCodec where
  parse := fun v? =>
    match v? with
    | some v => .ok v
    | none => .error (.custom "missing value")
  toJson := fun v => some v
  dflt := .null
  isRequired := true
  subRequired := []

/-- An optional-like field type: absence parses to `null`, otherwise the
value itself; never intrinsically required. -/
def optCodec : FieldCodec where
  parse := fun v? => .ok (v?.getD .null)
  toJson := fun v => some v
  dflt := .null
  isRequired := false
  subRequired := []

/-- The descriptor for claim C1's counterexample: no fields at all. -/
def c1Args : ObjectArgs := { fields := [] }

/-! ### Claim C1 -/

/-- Claim C1, counterexample: on the empty descriptor, `parse(None)` does
not return the same result as `parse({})`: `value.unwrap_or_default()`
produces JSON null (the `Default` of `serde_json::Value`), which falls into
the non-object arm and fails with `ExpectedType`, while `parse({})`
succeeds. -/
theorem c1_cex :
    parseFromJSON c1Args none ≠ parseFromJSON c1Args (some (.obj [])) := by
  simp [parseFromJSON, deserializeFields, c1Args]

/-- Claim C1 (amended): a missing (`None`) input and a JSON-null input are
both treated as JSON null — not as an empty object — and, like every other
effective value that is not a JSON object, fail with `ExpectedType` carrying
that value. -/
theorem c1_nonobject_expectedType (args : ObjectArgs) (v : Json)
    (h : ∀ entries, v ≠ .obj entries) :
    parseFromJSON args none = .error (.expectedType .null) ∧
    parseFromJSON args (some .null) = .error (.expectedType .null) ∧
    parseFromJSON args (some v) = .error (.expectedType v) := by
  refine ⟨rfl, rfl, ?_⟩
  cases v with
  | obj entries => exact absurd rfl (h entries)
  | _ => rfl

/-- Claim C1, witness for the amended theorem at the empty descriptor and
the non-object value `3`. -/
theorem c1_witness :
    parseFromJSON c1Args none = .error (.expectedType .null) ∧
    parseFromJSON c1Args (some .null) = .error (.expectedType .null) ∧
    parseFromJSON c1Args (some (.num 3)) = .error (.expectedType (.num 3)) :=
  c1_nonobject_expectedType c1Args (.num 3) (fun _ h => Json.noConfusion h)

/-! ### Claim C5 -/

/-- Claim C5: the `deserialize_fields` statement generated for a non-skip
read-only field fails with the read-only violation error whenever the
working object contains the field's serialized key — whatever value the key
is bound to, null included — and when the key is absent it succeeds,
binding the field to its type's `Default::default()` value and leaving the
working object untouched. -/
theorem c5_read_only_field (args : ObjectArgs) (f : Field) (obj : JObj)
    (hskip : f.skip = false) (hro : f.read_only = true) :
    (containsKey obj f.name = true →
      parseField args f obj = .error (.custom (readOnlyMsg f.name))) ∧
    (containsKey obj f.name = false →
      parseField args f obj = .ok (f.codec.dflt, obj)) := by
  constructor <;> intro h <;> simp [parseField, hskip, hro, h]

/-- The read-only field of claim C5's witness. -/
def c5Field : Field := { name := "f", codec := idCodec, read_only := true }

/-- The single-field read-only descriptor of claim C5's witness. -/
def c5Args : ObjectArgs := { fields := [c5Field] }

/-- Claim C5, witness: the read-only field rejects `{"f": null}` and
defaults on `{}`. -/
theorem c5_witness :
    parseField c5Args c5Field [("f", .null)] = .error (.custom (readOnlyMsg "f")) ∧
    parseField c5Args c5Field [] = .ok (Json.null, []) :=
  ⟨(c5_read_only_field c5Args c5Field [("f", .null)] rfl rfl).1 rfl,
   (c5_read_only_field c5Args c5Field [] rfl rfl).2 rfl⟩

/-! ### Claim C6 -/

/-- Claim C6: once all fields have been processed successfully, a descriptor
with `deny_unknown_fields` fails with the unknown-field error naming a
remaining key of the working map whenever that map is non-empty (and
succeeds when it is empty), while without `deny_unknown_fields` the same
input succeeds and the remaining keys are discarded. -/
theorem c6_deny_unknown_fields (args : ObjectArgs) (m : JObj) (vs : List Json)
    (rest : JObj)
    (h : deserializeFields args args.fields m = .ok (vs, rest)) :
    (args.deny_unknown_fields = true → ∀ k v t, rest = (k, v) :: t →
      parseFromJSON args (some (.obj m)) = .error (.custom (unknownFieldMsg k))) ∧
    (args.deny_unknown_fields = true → rest = [] →
      parseFromJSON args (some (.obj m)) = .ok vs) ∧
    (args.deny_unknown_fields = false →
      parseFromJSON args (some (.obj m)) = .ok vs) := by
  refine ⟨?_, ?_, ?_⟩
  · intro hd k v t hrest
    simp [parseFromJSON, h, hd, hrest]
  · intro hd hrest
    simp [parseFromJSON, h, hd, hrest]
  · intro hd
    simp [parseFromJSON, h, hd]

/-- The known field of claim C6's witness. -/
def c6Field : Field := { name := "known", codec := idCodec }

/-- Claim C6's strict descriptor (`deny_unknown_fields` set). -/
def c6ArgsStrict : ObjectArgs :=
  { fields := [c6Field], deny_unknown_fields := true }

/-- Claim C6's lax descriptor (`deny_unknown_fields` unset). -/
def c6ArgsLax : ObjectArgs := { fields := [c6Field] }

/-- Claim C6's input `{"known": true, "extra": 1}`. -/
def c6Input : JObj := [("known", .bool true), ("extra", .num 1)]

/-- Claim C6, witness: `parse({"known": true, "extra": 1})` fails with
`unknown field `extra`.` under `deny_unknown_fields` and succeeds without
it, discarding `extra`. -/
theorem c6_witness :
    parseFromJSON c6ArgsStrict (some (.obj c6Input)) =
      .error (.custom (unknownFieldMsg "extra")) ∧
    parseFromJSON c6ArgsLax (some (.obj c6Input)) = .ok [.bool true] :=
  ⟨(c6_deny_unknown_fields c6ArgsStrict c6Input [.bool true] [("extra", .num 1)]
      rfl).1 rfl "extra" (.num 1) [] rfl,
   (c6_deny_unknown_fields c6ArgsLax c6Input [.bool true] [("extra", .num 1)]
      rfl).2.2 rfl⟩

/-! ### Claim C7 -/

theorem checkFieldConflicts_error {roAll woAll : Bool} {fs : List Field}
    (h : ∃ f ∈ fs, f.skip = false ∧ (roAll || f.read_only) = true ∧
      (woAll || f.write_only) = true) :
    ∃ e, checkFieldConflicts roAll woAll fs = .error e := by
  induction fs with
  | nil => simp at h
  | cons f t ih =>
      obtain ⟨g, hg, hgs, hgr, hgw⟩ := h
      rcases List.mem_cons.1 hg with hgf | hgt
      · subst hgf
        exact ⟨"The `write_only` and `read_only` attributes cannot be enabled both.",
          by simp [checkFieldConflicts, hgs, hgr, hgw]⟩
      · by_cases hs : f.skip
        · obtain ⟨e, he⟩ := ih ⟨g, hgt, hgs, hgr, hgw⟩
          exact ⟨e, by simp [checkFieldConflicts, hs, he]⟩
        · by_cases hc : (roAll || f.read_only) && (woAll || f.write_only)
          · exact ⟨"The `write_only` and `read_only` attributes cannot be enabled both.",
              by simp [checkFieldConflicts, hs, hc]⟩
          · obtain ⟨e, he⟩ := ih ⟨g, hgt, hgs, hgr, hgw⟩
            exact ⟨e, by simp [checkFieldConflicts, hs, hc, he]⟩

/-- Claim C7: each of the three configuration conflicts makes `generate`
abort with an error (so no codec or schema is produced): a non-skip field
whose effective read-only and write-only flags are both set, `inline`
together with a non-empty `concretes` list, and a type-level `example`
together with a non-empty `concretes` list. -/
theorem c7_conflicts_abort (args : ObjectArgs) :
    ((∃ f ∈ args.fields, f.skip = false ∧
        (args.read_only_all || f.read_only) = true ∧
        (args.write_only_all || f.write_only) = true) →
      ∃ e, generate args = .error e) ∧
    (args.inline = true → args.concretes ≠ [] →
      ∃ e, generate args = .error e) ∧
    (args.hasExample = true → args.concretes ≠ [] →
      ∃ e, generate args = .error e) := by
  refine ⟨?_, ?_, ?_⟩
  · intro h
    unfold generate
    split
    · exact ⟨_, rfl⟩
    · split
      · exact ⟨_, rfl⟩
      · exact checkFieldConflicts_error h
  · intro hi hc
    have hc' : args.concretes.isEmpty = false := by
      simpa [List.isEmpty_iff] using hc
    simp [generate, hi, hc']
  · intro he hc
    have hc' : args.concretes.isEmpty = false := by
      simpa [List.isEmpty_iff] using hc
    unfold generate
    split
    · exact ⟨_, rfl⟩
    · simp [he, hc']

/-- A field carrying both access-mode restrictions, for claim C7's witness. -/
def c7Field : Field :=
  { name := "x", codec := idCodec, read_only := true, write_only := true }

/-- A descriptor with a read-only + write-only field. -/
def c7ArgsBoth : ObjectArgs := { fields := [c7Field] }

/-- A descriptor with `inline` and a concrete instantiation. -/
def c7ArgsInline : ObjectArgs :=
  { fields := [], inline := true, concretes := ["A"] }

/-- A descriptor with a type-level `example` and a concrete instantiation. -/
def c7ArgsExample : ObjectArgs :=
  { fields := [], hasExample := true, concretes := ["A"] }

/-- Claim C7, witness: each of the three conflicting descriptors makes
`generate` fail. -/
theorem c7_witness :
    (∃ e, generate c7ArgsBoth = .error e) ∧
    (∃ e, generate c7ArgsInline = .error e) ∧
    (∃ e, generate c7ArgsExample = .error e) :=
  ⟨(c7_conflicts_abort c7ArgsBoth).1 ⟨c7Field, by simp [c7ArgsBoth, c7Field]⟩,
   (c7_conflicts_abort c7ArgsInline).2.1 rfl (by simp [c7ArgsInline]),
   (c7_conflicts_abort c7ArgsExample).2.2 rfl (by simp [c7ArgsExample])⟩

/-! ### Claim C3 -/

/-- A field type whose serialization is a fixed one-entry object. -/
def c3Codec : FieldCodec where
  parse := fun _ => .ok .null
  toJson := fun _ => some (.obj [("a", .num 1)])
  dflt := .null
  isRequired := true
  subRequired := []

/-- A field marked both write-only and flatten. -/
def c3Field : Field :=
  { name := "w", codec := c3Codec, write_only := true, flatten := true }

/-- The single-field descriptor of claim C3's counterexample. -/
def c3Args : ObjectArgs := { fields := [c3Field] }

/-- Claim C3, counterexample: the serialize branch for flatten fields never
consults the write-only flag, so a field marked both write-only and flatten
does contribute its entries to the output: the only field of `c3Args` is
write-only, yet the serialized object is not empty — it contains the entry
`("a", 1)` contributed by that field. -/
theorem c3_cex :
    toJSON c3Args [.null] = some (.obj [("a", .num 1)]) ∧
    toJSON c3Args [.null] ≠ some (.obj []) := by
  refine ⟨rfl, ?_⟩
  simp only [show toJSON c3Args [.null] = some (.obj [("a", .num 1)]) from rfl]
  simp

/-- Claim C3 (amended): a *non-flatten* field marked write-only (per-field
or via the type-level flag) never contributes an entry to the serialize
output, for every instance value including the zero value; a flatten field
is merged into the output regardless of its write-only flag (shown by the
counterexample). -/
theorem c3_writeonly_nonflatten_omitted (args : ObjectArgs) (f : Field)
    (hwo : (args.write_only_all || f.write_only) = true) (hfl : f.flatten = false)
    (v : Json) (o : JObj) :
    serializeField args f v o = o := by
  simp [serializeField, hfl, hwo]

/-- A non-flatten write-only field for claim C3's witness. -/
def c3bField : Field := { name := "w", codec := idCodec, write_only := true }

/-- The descriptor of claim C3's witness. -/
def c3bArgs : ObjectArgs := { fields := [c3bField] }

/-- Claim C3, witness: the non-flatten write-only field contributes nothing,
both for an arbitrary value and for the zero value. -/
theorem c3_witness :
    serializeField c3bArgs c3bField (.num 5) [] = [] ∧
    serializeField c3bArgs c3bField idCodec.dflt [] = [] :=
  ⟨c3_writeonly_nonflatten_omitted c3bArgs c3bField rfl rfl (.num 5) [],
   c3_writeonly_nonflatten_omitted c3bArgs c3bField rfl rfl idCodec.dflt []⟩

/-! ### Claim C8 -/

/-- Claim C8: for a non-skip, non-read-only, non-flatten field with a
declared default, parsing substitutes the default value when the key is
absent or bound to JSON null without running any validator — the first two
conclusions hold for *every* validator list, in particular one that rejects
the default value — and the validators run exactly when a present non-null
value was parsed, with the first failure aborting the field's parse. -/
theorem c8_default_skips_validators (args : ObjectArgs) (f : Field)
    (obj : JObj) (d : FieldDefault)
    (hskip : f.skip = false) (hro : (args.read_only_all || f.read_only) = false)
    (hfl : f.flatten = false) (hd : f.fdefault = some d) :
    (lookupKey obj f.name = none →
      parseField args f obj = .ok (defaultValue f d, obj)) ∧
    (lookupKey obj f.name = some .null →
      parseField args f obj = .ok (defaultValue f d, (removeKey obj f.name).2)) ∧
    (∀ v w e, lookupKey obj f.name = some v → v ≠ .null →
      f.codec.parse (some v) = .ok w →
      checkValidators f.name f.validator w = .error e →
      parseField args f obj = .error e) ∧
    (∀ v w, lookupKey obj f.name = some v → v ≠ .null →
      f.codec.parse (some v) = .ok w →
      checkValidators f.name f.validator w = .ok () →
      parseField args f obj = .ok (w, (removeKey obj f.name).2)) := by
  refine ⟨?_, ?_, ?_, ?_⟩
  · intro h
    simp [parseField, hskip, hro, hfl, hd, removeKey_of_lookup_none h]
  · intro h
    simp [parseField, hskip, hro, hfl, hd, removeKey_fst, h]
  · intro v w e h hv hp hc
    cases v <;>
      first
        | exact absurd rfl hv
        | simp [parseField, hskip, hro, hfl, hd, removeKey_fst, h, hp, hc]
  · intro v w h hv hp hc
    cases v <;>
      first
        | exact absurd rfl hv
        | simp [parseField, hskip, hro, hfl, hd, removeKey_fst, h, hp, hc]

/-- The defaulted field of claim C8's witness: its factory default is `7`
and its single validator rejects every value. -/
def c8Field : Field :=
  { name := "a", codec := idCodec, fdefault := some (.factory (.num 7)),
    validator := [fun _ => false] }

/-- The descriptor of claim C8's witness. -/
def c8Args : ObjectArgs := { fields := [c8Field] }

/-- Claim C8, witness: with an always-failing validator, the default `7` is
substituted for an absent key and for a null value — so the defaulted
instance holds a value that fails its own declared constraint — while a
present non-null value is rejected by that validator. -/
theorem c8_witness :
    parseField c8Args c8Field [] = .ok (.num 7, []) ∧
    parseField c8Args c8Field [("a", .null)] = .ok (.num 7, []) ∧
    parseField c8Args c8Field [("a", .num 1)] =
      .error (.custom "field `a` verification failed") :=
  ⟨(c8_default_skips_validators c8Args c8Field [] (.factory (.num 7))
      rfl rfl rfl rfl).1 rfl,
   (c8_default_skips_validators c8Args c8Field [("a", .null)] (.factory (.num 7))
      rfl rfl rfl rfl).2.1 rfl,
   (c8_default_skips_validators c8Args c8Field [("a", .num 1)] (.factory (.num 7))
      rfl rfl rfl rfl).2.2.1 (.num 1) (.num 1)
      (.custom "field `a` verification failed") rfl
      (fun h => Json.noConfusion h) rfl rfl⟩

/-! ### Claim C4 -/

/-- Claim C4: a flatten field's value is parsed from a clone of the entire
remaining working object — exactly `parse_from_json(Some(Object(obj.clone())))`,
with the working object returned unchanged, no key removed — and on
serialize a later field in declaration order deterministically overwrites a
colliding key written by any earlier field: a later non-flatten field's
entry wins under its serialized name, and a later flatten field's merged
entries win on every key they carry. -/
theorem c4_flatten_parse_and_merge (args : ObjectArgs) (f g : Field)
    (v jv : Json) (ps : List (Field × Json)) (o o' : JObj) (k : String) :
    (f.flatten = true → f.skip = false →
      (args.read_only_all || f.read_only) = false → ∀ obj,
      parseField args f obj =
        match f.codec.parse (some (.obj obj)) with
        | .error e => .error e
        | .ok w => .ok (w, obj)) ∧
    (g.skip = false → g.flatten = false →
      (args.write_only_all || g.write_only) = false →
      g.codec.toJson v = some jv →
      lookupKey (serializeFields args (ps ++ [(g, v)]) o) g.name = some jv) ∧
    (g.skip = false → g.flatten = true →
      g.codec.toJson v = some (.obj o') →
      (o'.map Prod.fst).Nodup → lookupKey o' k = some jv →
      lookupKey (serializeFields args (ps ++ [(g, v)]) o) k = some jv) := by
  refine ⟨?_, ?_, ?_⟩
  · intro h1 h2 h3 obj
    simp [parseField, h1, h2, h3]
  · intro h1 h2 h3 h4
    rw [serializeFields_append]
    simp [serializeFields, serializeField, h1, h2, h3, h4, lookup_insertKey_self]
  · intro h1 h2 h3 hnd hk
    rw [serializeFields_append]
    simp only [serializeFields, serializeField, h1, h2, h3, Bool.not_true,
      if_neg, if_false]
    simpa [serializeField, h1, h2, h3] using lookup_extendMap_mem
      (serializeFields args ps o) hnd hk

/-- The flatten field of claim C4's witness: it parses anything and
serializes to `{"a": 3}`. -/
def c4Flat : Field :=
  { name := "fl",
    codec := { parse := fun v? => .ok (v?.getD .null),
               toJson := fun _ => some (.obj [("a", .num 3)]),
               dflt := .null, isRequired := false, subRequired := [] },
    flatten := true }

/-- A plain field with serialized name `"a"` for claim C4's witness. -/
def c4Direct : Field := { name := "a", codec := idCodec }

/-- The descriptor of claim C4's witness. -/
def c4Args : ObjectArgs := { fields := [c4Direct, c4Flat] }

/-- Claim C4, witness: the flatten field parses the whole remaining object
(and removes nothing); a later plain field overwrites the earlier entry at
`"a"`; a later flatten field overwrites the earlier entry at `"a"` as
well. -/
theorem c4_witness :
    parseField c4Args c4Flat [("a", .num 1)] =
      .ok (.obj [("a", .num 1)], [("a", .num 1)]) ∧
    lookupKey (serializeFields c4Args [(c4Direct, .num 1), (c4Direct, .num 2)] [])
      "a" = some (.num 2) ∧
    lookupKey (serializeFields c4Args [(c4Direct, .num 1), (c4Flat, .null)] [])
      "a" = some (.num 3) :=
  ⟨(c4_flatten_parse_and_merge c4Args c4Flat c4Direct (.num 2) (.num 2)
      [(c4Direct, .num 1)] [] [] "a").1 rfl rfl rfl [("a", .num 1)],
   (c4_flatten_parse_and_merge c4Args c4Flat c4Direct (.num 2) (.num 2)
      [(c4Direct, .num 1)] [] [] "a").2.1 rfl rfl rfl rfl,
   (c4_flatten_parse_and_merge c4Args c4Flat c4Flat .null (.num 3)
      [(c4Direct, .num 1)] [] [("a", .num 3)] "a").2.2 rfl rfl rfl
      (by simp) rfl⟩

/-! ### Working-object preservation (used by C9 and C10) -/

/-- A successful field parse either leaves the working object unchanged, or
— only for a non-skip, non-read-only, non-flatten field — removes exactly
the field's own serialized key. -/
theorem parseField_ok_working (args : ObjectArgs) (f : Field) {obj obj' : JObj}
    {w : Json} (h : parseField args f obj = .ok (w, obj')) :
    obj' = obj ∨
      (f.skip = false ∧ (args.read_only_all || f.read_only) = false ∧
        f.flatten = false ∧ obj' = (removeKey obj f.name).2) := by
  by_cases hs : f.skip
  · left
    simp [parseField, hs] at h
    exact h.2.symm
  · by_cases hro : (args.read_only_all || f.read_only) = true
    · left
      by_cases hc : containsKey obj f.name = true
      · simp [parseField, hs, hro, hc] at h
      · simp [parseField, hs, hro, hc] at h
        exact h.2.symm
    · by_cases hfl : f.flatten
      · left
        simp [parseField, hs, hro, hfl] at h
        split at h <;> simp_all
      · right
        have hs' : f.skip = false := by simpa using hs
        have hro' : (args.read_only_all || f.read_only) = false := by simpa using hro
        have hfl' : f.flatten = false := by simpa using hfl
        refine ⟨hs', hro', hfl', ?_⟩
        simp [parseField, hs', hro', hfl'] at h
        repeat' split at h
        all_goals simp_all

/-- A successful field parse preserves the binding of any key the field
cannot remove: keys other than the field's own serialized name, and every
key when the field is skip, read-only or flatten. -/
theorem parseField_preserves_lookup (args : ObjectArgs) (f : Field)
    {obj obj' : JObj} {w : Json} {k : String} {v : Json}
    (hk : f.skip = true ∨ (args.read_only_all || f.read_only) = true ∨
      f.flatten = true ∨ f.name ≠ k)
    (hv : lookupKey obj k = some v)
    (h : parseField args f obj = .ok (w, obj')) :
    lookupKey obj' k = some v := by
  rcases parseField_ok_working args f h with rfl | ⟨hs, hro, hfl, hobj⟩
  · exact hv
  · have hne : f.name ≠ k := by
      rcases hk with h1 | h1 | h1 | h1 <;> simp_all
    rw [hobj, lookup_removeKey_ne obj hne]
    exact hv

/-- Key preservation through a whole successful `deserialize_fields` run. -/
theorem deserializeFields_preserves_lookup (args : ObjectArgs)
    (fs : List Field) {obj rest : JObj} {vs : List Json} {k : String} {v : Json}
    (hk : ∀ f ∈ fs, f.skip = true ∨ (args.read_only_all || f.read_only) = true ∨
      f.flatten = true ∨ f.name ≠ k)
    (hv : lookupKey obj k = some v)
    (h : deserializeFields args fs obj = .ok (vs, rest)) :
    lookupKey rest k = some v := by
  induction fs generalizing obj vs rest with
  | nil =>
      simp [deserializeFields] at h
      rw [← h.2]
      exact hv
  | cons f t ih =>
      cases hp : parseField args f obj with
      | error e => simp [deserializeFields, hp] at h
      | ok p =>
          obtain ⟨w, obj'⟩ := p
          cases hd : deserializeFields args t obj' with
          | error e => simp [deserializeFields, hp, hd] at h
          | ok q =>
              obtain ⟨vs', rest'⟩ := q
              simp [deserializeFields, hp, hd] at h
              obtain ⟨h1, h2⟩ := h
              have hv' := parseField_preserves_lookup args f
                (hk f (List.mem_cons_self f t)) hv hp
              have hr := ih (fun g hg => hk g (List.mem_cons_of_mem f hg)) hv' hd
              rw [← h2]
              exact hr

/-! ### Claim C9 -/

/-- Claim C9: keys read by a flatten field are never removed from the
working object, so under `deny_unknown_fields` any input key that no
sibling can consume — every field is skip, read-only, flatten, or named
differently, which is exactly the situation of a key belonging to a
flattened sub-type — makes the whole parse fail with the unknown-field
error once all the fields themselves parsed successfully. -/
theorem c9_flatten_key_unknown_field (args : ObjectArgs) (m : JObj)
    (k : String) (v : Json) (vs : List Json) (rest : JObj)
    (hd : args.deny_unknown_fields = true)
    (hm : lookupKey m k = some v)
    (hfs : ∀ f ∈ args.fields, f.skip = true ∨
      (args.read_only_all || f.read_only) = true ∨ f.flatten = true ∨ f.name ≠ k)
    (hok : deserializeFields args args.fields m = .ok (vs, rest)) :
    ∃ k', parseFromJSON args (some (.obj m)) =
      .error (.custom (unknownFieldMsg k')) := by
  have hrest := deserializeFields_preserves_lookup args args.fields hfs hm hok
  cases hre : rest with
  | nil => rw [hre] at hrest; simp [lookupKey] at hrest
  | cons p t =>
      obtain ⟨k', v'⟩ := p
      refine ⟨k', ?_⟩
      rw [hre] at hok
      simp [parseFromJSON, hok, hd]

/-- The flatten field of claim C9's witness: it parses anything and its
sub-object serializes to `{"s": 2}`. -/
def c9Field : Field :=
  { name := "fl",
    codec := { parse := fun _ => .ok .null,
               toJson := fun _ => some (.obj [("s", .num 2)]),
               dflt := .null, isRequired := false, subRequired := [] },
    flatten := true }

/-- The strict descriptor of claim C9's witness: one flatten field and
`deny_unknown_fields`. -/
def c9Args : ObjectArgs :=
  { fields := [c9Field], deny_unknown_fields := true }

/-- Claim C9, witness: `parse(serialize(x))` fails with the unknown-field
error for an instance whose flattened sub-object serializes to the
non-empty object `{"s": 2}`. -/
theorem c9_witness :
    ∃ k', parseFromJSON c9Args (toJSON c9Args [.null]) =
      .error (.custom (unknownFieldMsg k')) :=
  c9_flatten_key_unknown_field c9Args [("s", .num 2)] "s" (.num 2) [.null]
    [("s", .num 2)] rfl rfl
    (by
      intro f hf
      rw [List.mem_singleton.1 hf]
      exact Or.inr (Or.inr (Or.inl rfl)))
    rfl

/-! ### Claim C10 -/

theorem requiredFieldsOf_append (a b : List Field) :
    requiredFieldsOf (a ++ b) = requiredFieldsOf a ++ requiredFieldsOf b := by
  induction a with
  | nil => rfl
  | cons f t ih => simp [requiredFieldsOf, ih]

/-- With the read-only field's key present, `deserialize_fields` can never
succeed, provided no earlier field can consume that key. -/
theorem deserializeFields_readonly_blocks (args : ObjectArgs) (f : Field)
    (post : List Field)
    (hskip : f.skip = false) (hro : (args.read_only_all || f.read_only) = true) :
    ∀ (pre : List Field) (obj : JObj) (v : Json),
      lookupKey obj f.name = some v →
      (∀ g ∈ pre, g.skip = true ∨ (args.read_only_all || g.read_only) = true ∨
        g.flatten = true ∨ g.name ≠ f.name) →
      ∀ r, deserializeFields args (pre ++ f :: post) obj ≠ .ok r := by
  intro pre
  induction pre with
  | nil =>
      intro obj v hv _ r h
      have hc : containsKey obj f.name = true := containsKey_eq_true_of_lookup hv
      simp [deserializeFields, parseField, hskip, hro, hc] at h
  | cons g t ih =>
      intro obj v hv hpre r h
      cases hp : parseField args g obj with
      | error e => simp [deserializeFields, hp] at h
      | ok p =>
          obtain ⟨w, obj'⟩ := p
          have hv' := parseField_preserves_lookup args g
            (hpre g (List.mem_cons_self g t)) hv hp
          cases hd : deserializeFields args (t ++ f :: post) obj' with
          | error e => simp [List.cons_append, deserializeFields, hp, hd] at h
          | ok q =>
              exact ih obj' v hv'
                (fun g' hg' => hpre g' (List.mem_cons_of_mem g hg')) q hd

/-- Claim C10 (amended): for a non-skip, non-flatten, read-only field whose
type is intrinsically required and that declares no default, and that no
earlier field can consume the key of (every earlier field is skip,
read-only, flatten, or carries a different serialized name — in particular
whenever serialized names are distinct), the schema's required list
contains the field's serialized name while no input object containing that
key parses successfully: the advertised required-field schema and a
successful parse are jointly unsatisfiable. -/
theorem c10_readonly_required_unsatisfiable (args : ObjectArgs)
    (pre post : List Field) (f : Field)
    (hfields : args.fields = pre ++ f :: post)
    (hskip : f.skip = false) (hro : (args.read_only_all || f.read_only) = true)
    (hreq : f.codec.isRequired = true) (hnd : f.fdefault = none)
    (hfl : f.flatten = false)
    (hpre : ∀ g ∈ pre, g.skip = true ∨ (args.read_only_all || g.read_only) = true ∨
      g.flatten = true ∨ g.name ≠ f.name) :
    f.name ∈ requiredFieldsOf args.fields ∧
    ∀ m v, lookupKey m f.name = some v →
      ∀ res, parseFromJSON args (some (.obj m)) ≠ .ok res := by
  constructor
  · rw [hfields, requiredFieldsOf_append]
    refine List.mem_append_right _ ?_
    simp [requiredFieldsOf, hskip, hfl, hreq, hnd]
  · intro m v hv res h
    cases hd : deserializeFields args args.fields m with
    | error e => simp [parseFromJSON, hd] at h
    | ok q =>
        rw [hfields] at hd
        exact deserializeFields_readonly_blocks args f post hskip hro pre m v
          hv hpre q hd

/-- The sibling field (distinct serialized name) of claim C10's witness. -/
def c10bSib : Field := { name := "g", codec := optCodec }

/-- The read-only, intrinsically-required, default-free field of claim
C10's witness. -/
def c10bRo : Field := { name := "f", codec := idCodec, read_only := true }

/-- The descriptor of claim C10's witness. -/
def c10bArgs : ObjectArgs := { fields := [c10bSib, c10bRo] }

/-- Claim C10, witness: `"f"` is advertised as required, yet
`parse({"f": null})` cannot succeed. -/
theorem c10_witness :
    "f" ∈ requiredFieldsOf c10bArgs.fields ∧
    parseFromJSON c10bArgs (some (.obj [("f", .null)])) ≠ .ok [.null, .null] :=
  ⟨(c10_readonly_required_unsatisfiable c10bArgs [c10bSib] [] c10bRo rfl rfl rfl
      rfl rfl rfl
      (by
        intro g hg
        rw [List.mem_singleton.1 hg]
        exact Or.inr (Or.inr (Or.inr (by decide))))).1,
   (c10_readonly_required_unsatisfiable c10bArgs [c10bSib] [] c10bRo rfl rfl rfl
      rfl rfl rfl
      (by
        intro g hg
        rw [List.mem_singleton.1 hg]
        exact Or.inr (Or.inr (Or.inr (by decide))))).2
     [("f", .null)] .null rfl [.null, .null]⟩

/-- The plain sibling sharing the read-only field's serialized name, for
claim C10's counterexample. -/
def c10Sib : Field := { name := "f", codec := optCodec }

/-- The read-only, intrinsically-required, default-free field of claim
C10's counterexample. -/
def c10Ro : Field := { name := "f", codec := idCodec, read_only := true }

/-- The counterexample descriptor for claim C10: a plain field declared
before the read-only field, with the same serialized name. -/
def c10Args : ObjectArgs := { fields := [c10Sib, c10Ro] }

/-- Claim C10, counterexample: with an earlier plain sibling using the same
serialized name, the schema still lists `"f"` as required, but
`parse({"f": 1})` succeeds — the sibling consumes the key before the
read-only check runs — so the claim's assertion that parse fails on every
input object containing the key is false, and an input can satisfy the
advertised required-field schema and parse successfully. -/
theorem c10_cex :
    requiredFieldsOf c10Args.fields = ["f"] ∧
    containsKey [("f", .num 1)] "f" = true ∧
    parseFromJSON c10Args (some (.obj [("f", .num 1)])) = .ok [.num 1, .null] :=
  ⟨rfl, rfl, rfl⟩

/-! ### Claim C2 -/

/-- The object obtained by serializing a list of plain (non-skip,
non-flatten, non-write-only) fields in declaration order. -/
def entriesOf : List (Field × Json) → JObj
  | [] => []
  | (f, v) :: ps =>
      (match f.codec.toJson v with
       | some jv => [(f.name, jv)]
       | none => []) ++ entriesOf ps

theorem containsKey_append (a b : JObj) (k : String) :
    containsKey (a ++ b) k = (containsKey a k || containsKey b k) := by
  simp [containsKey, List.any_append]

theorem entriesOf_keys_subset {ps : List (Field × Json)} {k : String}
    (h : k ∈ (entriesOf ps).map Prod.fst) :
    k ∈ ps.map (fun p => p.1.name) := by
  induction ps with
  | nil => simp [entriesOf] at h
  | cons p t ih =>
      obtain ⟨f, v⟩ := p
      simp only [entriesOf] at h
      simp only [List.map_cons]
      cases hj : f.codec.toJson v with
      | some jv =>
          rw [hj] at h
          simp only [List.singleton_append, List.map_cons, List.mem_cons] at h
          rcases h with h | h
          · rw [h]
            exact List.mem_cons_self _ _
          · exact List.mem_cons_of_mem _ (ih h)
      | none =>
          rw [hj] at h
          simp only [List.nil_append] at h
          exact List.mem_cons_of_mem _ (ih h)

/-- The conditions under which one field round-trips: a plain read-write
field whose type's codec round-trips the value, whose validators accept
the value, and — when a default is declared — whose serialization is a
present non-null value (otherwise parsing would substitute the default,
as claim C2's counterexample shows). -/
def goodPair (args : ObjectArgs) (f : Field) (v : Json) : Prop :=
  f.skip = false ∧ f.flatten = false ∧
  (args.read_only_all || f.read_only) = false ∧
  (args.write_only_all || f.write_only) = false ∧
  f.codec.parse (f.codec.toJson v) = .ok v ∧
  (∀ c ∈ f.validator, c v = true) ∧
  (∀ d, f.fdefault = some d → ∃ jv, f.codec.toJson v = some jv ∧ jv ≠ .null)

theorem serializeFields_entries (args : ObjectArgs) (ps : List (Field × Json)) :
    ∀ acc : JObj,
      (∀ p ∈ ps, p.1.skip = false ∧ p.1.flatten = false ∧
        (args.write_only_all || p.1.write_only) = false) →
      (∀ p ∈ ps, containsKey acc p.1.name = false) →
      (ps.map (fun p => p.1.name)).Nodup →
      serializeFields args ps acc = acc ++ entriesOf ps := by
  induction ps with
  | nil =>
      intro acc _ _ _
      simp [serializeFields, entriesOf]
  | cons p t ih =>
      obtain ⟨f, v⟩ := p
      intro acc hgood hfresh hnd
      obtain ⟨hs, hfl, hwo⟩ := hgood (f, v) (List.mem_cons_self _ _)
      have hfr := hfresh (f, v) (List.mem_cons_self _ _)
      dsimp only at hs hfl hwo hfr
      simp only [List.map_cons, List.nodup_cons] at hnd
      cases hj : f.codec.toJson v with
      | some jv =>
          have hser : serializeField args f v acc = acc ++ [(f.name, jv)] := by
            simp [serializeField, hs, hfl, hwo, hj, insertKey_fresh jv hfr]
          have hfresh' : ∀ q ∈ t, containsKey (acc ++ [(f.name, jv)]) q.1.name = false := by
            intro q hq
            have h1 := hfresh q (List.mem_cons_of_mem _ hq)
            have h2 : containsKey [(f.name, jv)] q.1.name = false := by
              simp only [containsKey, List.any_cons, List.any_nil, Bool.or_false,
                beq_eq_false_iff_ne, ne_eq]
              intro e
              apply hnd.1
              rw [e]
              exact List.mem_map.2 ⟨q, hq, rfl⟩
            rw [containsKey_append, h1, h2]
            rfl
          rw [serializeFields, hser,
            ih (acc ++ [(f.name, jv)])
              (fun q hq => hgood q (List.mem_cons_of_mem _ hq)) hfresh' hnd.2]
          simp [entriesOf, hj]
      | none =>
          have hser : serializeField args f v acc = acc := by
            simp [serializeField, hs, hfl, hwo, hj]
          rw [serializeFields, hser,
            ih acc (fun q hq => hgood q (List.mem_cons_of_mem _ hq))
              (fun q hq => hfresh q (List.mem_cons_of_mem _ hq)) hnd.2]
          simp [entriesOf, hj]

theorem deserializeFields_entries (args : ObjectArgs) (fs : List Field) :
    ∀ vs : List Json, fs.length = vs.length →
      (fs.map Field.name).Nodup →
      (∀ p ∈ fs.zip vs, goodPair args p.1 p.2) →
      deserializeFields args fs (entriesOf (fs.zip vs)) = .ok (vs, []) := by
  induction fs with
  | nil =>
      intro vs hlen _ _
      cases vs with
      | nil => rfl
      | cons v vs' => simp at hlen
  | cons f t ih =>
      intro vs hlen hnd hgood
      cases vs with
      | nil => simp at hlen
      | cons v vs' =>
          have hzip : (f :: t).zip (v :: vs') = (f, v) :: t.zip vs' := rfl
          obtain ⟨hs, hfl, hro, hwo, hparse, hval, hdef⟩ :=
            hgood (f, v) (by rw [hzip]; exact List.mem_cons_self _ _)
          dsimp only at hs hfl hro hwo hparse hval hdef
          simp only [List.map_cons, List.nodup_cons] at hnd
          have hlen' : t.length = vs'.length := by simpa using hlen
          have hnotin : lookupKey (entriesOf (t.zip vs')) f.name = none := by
            apply lookupKey_eq_none_of_not_mem
            intro hmem
            have hmem' := entriesOf_keys_subset hmem
            have hsub : (t.zip vs').map (fun p => p.1.name)
                = (((t.zip vs').map Prod.fst).map Field.name) := by
              simp [List.map_map]
            rw [hsub, List.map_fst_zip t vs' (le_of_eq hlen')] at hmem'
            exact hnd.1 hmem'
          have hpf : parseField args f (entriesOf ((f, v) :: t.zip vs'))
              = .ok (v, entriesOf (t.zip vs')) := by
            cases hj : f.codec.toJson v with
            | some jv =>
                have hparse' : f.codec.parse (some jv) = .ok v := by
                  rw [← hj]; exact hparse
                have hrm : removeKey (entriesOf ((f, v) :: t.zip vs')) f.name
                    = (some jv, entriesOf (t.zip vs')) := by
                  simp [entriesOf, hj, removeKey]
                cases hfd : f.fdefault with
                | none =>
                    simp [parseField, hs, hro, hfl, hfd, hrm, hparse',
                      checkValidators_ok hval]
                | some d =>
                    obtain ⟨jv', hj', hne⟩ := hdef d hfd
                    rw [hj] at hj'
                    injection hj' with he
                    subst he
                    cases jv <;>
                      first
                        | exact absurd rfl hne
                        | simp [parseField, hs, hro, hfl, hfd, hrm, hparse',
                            checkValidators_ok hval]
            | none =>
                have hparse' : f.codec.parse none = .ok v := by
                  rw [← hj]; exact hparse
                have hents : entriesOf ((f, v) :: t.zip vs')
                    = entriesOf (t.zip vs') := by
                  simp [entriesOf, hj]
                have hrm := removeKey_of_lookup_none hnotin
                cases hfd : f.fdefault with
                | none =>
                    rw [hents]
                    simp [parseField, hs, hro, hfl, hfd, hrm, hparse',
                      checkValidators_ok hval]
                | some d =>
                    obtain ⟨jv', hj', hne⟩ := hdef d hfd
                    rw [hj] at hj'
                    exact absurd hj' (by simp)
          have hrest := ih vs' hlen' hnd.2
            (fun q hq => hgood q (by rw [hzip]; exact List.mem_cons_of_mem _ hq))
          rw [hzip]
          simp [deserializeFields, hpf, hrest]

/-- Claim C2 (amended): round-trip holds for every descriptor whose fields
are all plain read-write fields — non-skip, non-flatten — with pairwise
distinct serialized names, and every instance whose field values round-trip
through their own codecs, pass their validators, and (when a default is
declared) serialize to a present non-null value: then
`parse(serialize(x)) = Ok(x)` field-by-field. -/
theorem c2_roundtrip (args : ObjectArgs) (vs : List Json)
    (hlen : args.fields.length = vs.length)
    (hnd : (args.fields.map Field.name).Nodup)
    (hgood : ∀ p ∈ args.fields.zip vs, goodPair args p.1 p.2) :
    parseFromJSON args (toJSON args vs) = .ok vs := by
  have hzipnames : (args.fields.zip vs).map (fun p => p.1.name)
      = args.fields.map Field.name := by
    have hsub : (args.fields.zip vs).map (fun p => p.1.name)
        = (((args.fields.zip vs).map Prod.fst).map Field.name) := by
      simp [List.map_map]
    rw [hsub, List.map_fst_zip args.fields vs (le_of_eq hlen)]
  have hser : serializeFields args (args.fields.zip vs) []
      = entriesOf (args.fields.zip vs) := by
    have h := serializeFields_entries args (args.fields.zip vs) []
      (fun p hp =>
        ⟨(hgood p hp).1, (hgood p hp).2.1, (hgood p hp).2.2.2.1⟩)
      (fun p _ => rfl)
      (by rw [hzipnames]; exact hnd)
    simpa using h
  have hdes := deserializeFields_entries args args.fields vs hlen hnd hgood
  simp only [toJSON, hser, parseFromJSON, Option.getD_some]
  rw [hdes]
  cases hd : args.deny_unknown_fields <;> simp

/-- The defaulted field of claim C2's counterexample: an identity codec
whose zero value is `0`, with the zero-value default declared. -/
def c2cField : Field :=
  { name := "a",
    codec := { parse := fun v? =>
                 match v? with
                 | some v => .ok v
                 | none => .error (.custom "missing value"),
               toJson := fun v => some v,
               dflt := .num 0, isRequired := true, subRequired := [] },
    fdefault := some .zero }

/-- The single-field descriptor of claim C2's counterexample; its only
field is read-write. -/
def c2cArgs : ObjectArgs := { fields := [c2cField] }

/-- Claim C2, counterexample: all fields of `c2cArgs` are read-write, the
instance `[null]` serializes to `{"a": null}`, yet parsing it back yields
`[0]` — the declared default is substituted for the null value — so
`parse(serialize(x))` is not `x` field-by-field. -/
theorem c2_cex :
    toJSON c2cArgs [.null] = some (.obj [("a", .null)]) ∧
    parseFromJSON c2cArgs (some (.obj [("a", .null)])) = .ok [.num 0] ∧
    parseFromJSON c2cArgs (toJSON c2cArgs [.null]) ≠ .ok [.null] := by
  refine ⟨rfl, rfl, ?_⟩
  simp only [show parseFromJSON c2cArgs (toJSON c2cArgs [.null])
      = .ok [.num 0] from rfl]
  simp

/-- First plain field of claim C2's witness. -/
def c2wA : Field := { name := "a", codec := idCodec }

/-- Second plain field of claim C2's witness. -/
def c2wB : Field := { name := "b", codec := idCodec }

/-- The two-field descriptor of claim C2's witness. -/
def c2wArgs : ObjectArgs := { fields := [c2wA, c2wB] }

/-- Claim C2, witness for the amended round-trip at the instance
`{a: 1, b: "x"}`. -/
theorem c2_witness :
    parseFromJSON c2wArgs (toJSON c2wArgs [.num 1, .str "x"]) =
      .ok [.num 1, .str "x"] :=
  c2_roundtrip c2wArgs [.num 1, .str "x"] rfl (by decide)
    (by
      intro p hp
      have hp' : p = (c2wA, .num 1) ∨ p = (c2wB, .str "x") := by
        simpa [c2wArgs] using hp
      rcases hp' with hp' | hp' <;> subst hp' <;>
        exact ⟨rfl, rfl, rfl, rfl, rfl, by simp [c2wA, c2wB],
          fun d hd => Option.noConfusion hd⟩)

end PoemObject
